import Mathlib

/-!
# Verification of the RSVP speed-reader pacing engine (src/app.js)

This file is a shallow embedding of the word-pacing playback engine of the
RSVP speed reader: the `RSVPReader` class of `src/app.js`.  The engine state
(word list, current index, playing flag, interval handle, words-per-minute
value) is modelled as a Lean structure; each method of the class that touches
engine state becomes a Lean function on that structure.  Host timers
(`setInterval` / `clearInterval`) are modelled by a list of live timer
handles paired with their requested interval, plus a counter supplying fresh
handles; a timer tick is a step of the transition relation that may fire
whenever a live handle exists.  DOM presentation that carries no engine
state (progress bar, word counter, font size, tab switching, URL fetching)
is omitted; the displayed word (`wordDisplay.textContent`) is kept because
the engine writes sentinel texts and current words into it.
-/

namespace RSVP

/-! ## Tokenizer

`loadText` splits the input on runs of whitespace (`text.split(/\s+/)`),
filters out empty fragments and trims each fragment.  We model the split
over the character list: `splitWsChars` splits at every whitespace
character (consecutive whitespace characters thus produce empty fragments
between them); after the `length > 0` filter this yields exactly the same
list as JavaScript's run-based `/\s+/` split followed by the same filter,
since both keep precisely the maximal whitespace-free runs. -/

/-- Split a character list at each whitespace character; fragments between
two adjacent whitespace characters are empty. -/
def splitWsChars : List Char → List (List Char)
  | [] => [[]]
  | c :: cs =>
    if c.isWhitespace then
      [] :: splitWsChars cs
    else
      match splitWsChars cs with
      | t :: ts => (c :: t) :: ts
      | [] => [[c]]

/-- Models `String.prototype.trim`: drop leading and trailing whitespace. -/
def trimChars (l : List Char) : List Char :=
  ((l.dropWhile Char.isWhitespace).reverse.dropWhile Char.isWhitespace).reverse

/-- Models `text.split(/\s+/)` as used by `loadText`, as a list of strings. -/
def jsSplitWs (text : String) : List String :=
  (splitWsChars text.data).map String.mk

/-- Models `word.trim()` on a string. -/
def jsTrim (s : String) : String :=
  String.mk (trimChars s.data)

/-- The tokenization performed by `loadText` (src/app.js lines 75-95): the
guard `!text || text.trim() === ''` yields no words; otherwise the text is
split on whitespace, empty fragments are dropped and each word is trimmed.
A string trims to empty exactly when all of its characters are whitespace
(and the falsy empty string is covered by the same test). -/
def tokenize (text : String) : List String :=
  if text.data.all Char.isWhitespace then
    []
  else
    ((jsSplitWs text).filter (fun w => w.length > 0)).map jsTrim

/-! ## Engine state -/

/-- The engine-relevant state of the `RSVPReader` instance.

* `words`, `currentWordIndex`, `isPlaying`, `intervalId`, `wpm` are the
  fields of the class (src/app.js lines 19-24).
* `wordDisplay` is the text content of the word display element.
* `playDisabled` / `pauseDisabled` are the `disabled` attributes of the
  play and pause buttons; a disabled button cannot deliver a click, which
  is what gates the corresponding operations.
* `timers` is the list of live host timers (handle, interval in
  milliseconds); `nextTimer` supplies fresh positive handles, matching
  browsers where `setInterval` returns a positive integer (the code tests
  the handle for truthiness, so handle 0 is never issued). -/
structure Reader where
  words : List String
  currentWordIndex : Nat
  isPlaying : Bool
  intervalId : Option Nat
  wpm : Int
  wordDisplay : String
  playDisabled : Bool
  pauseDisabled : Bool
  timers : List (Nat × ℚ)
  nextTimer : Nat
deriving DecidableEq, Repr

/-- The freshly constructed reader (src/app.js lines 19-24): no words,
index 0, not playing, no interval, 250 wpm.  The initial display text and
button `disabled` attributes live in the markup, which is not part of the
engine source; we model both buttons as enabled (the permissive choice —
clicking pause when idle is a no-op) and the display as the idle sentinel. -/
def initReader : Reader :=
  { words := []
    currentWordIndex := 0
    isPlaying := false
    intervalId := none
    wpm := 250
    wordDisplay := "Start Reading"
    playDisabled := false
    pauseDisabled := false
    timers := []
    nextTimer := 1 }

/-! ## Operations -/

/-- Models `const msPerWord = 60000 / this.wpm` (src/app.js line 218): the timing
policy, milliseconds per word.  JavaScript number division is modelled as
rational division; the value agrees with the source for every nonzero
`wpm` (at `wpm = 0` JavaScript produces `Infinity`, which no claim about a
nonzero rate depends on). -/
def msPerWord (wpm : Int) : ℚ :=
  60000 / wpm

/-- Models `setInterval(callback, interval)`: a fresh live timer handle is
created and stored in `this.intervalId` (src/app.js line 219). -/
def startTimer (s : Reader) (interval : ℚ) : Reader :=
  { s with
    intervalId := some s.nextTimer
    timers := s.timers ++ [(s.nextTimer, interval)]
    nextTimer := s.nextTimer + 1 }

/-- Method `displayWord` (src/app.js lines 251-273): writes
`this.words[this.currentWordIndex]` into the display, but only under the
guard `currentWordIndex < words.length`; otherwise nothing happens.
(The font-size adjustment and progress/counter updates are presentation
only and are omitted.) -/
def displayWord (s : Reader) : Reader :=
  if h : s.currentWordIndex < s.words.length then
    { s with wordDisplay := s.words.get ⟨s.currentWordIndex, h⟩ }
  else
    s

/-- Method `pause` (src/app.js lines 232-241): clear the playing flag, re-enable
the play button, disable the pause button, and, if an interval handle is
held, `clearInterval` it and null the field. -/
def pause (s : Reader) : Reader :=
  match s.intervalId with
  | some h =>
    { s with
      isPlaying := false
      playDisabled := false
      pauseDisabled := true
      timers := s.timers.filter (fun t => t.1 ≠ h)
      intervalId := none }
  | none =>
    { s with
      isPlaying := false
      playDisabled := false
      pauseDisabled := true }

/-- Method `play` (src/app.js lines 202-230): with no words loaded, alert and
return (state untouched).  Otherwise reset the index to 0 if it has run
past the end, mark playing, flip the buttons, display the current word
immediately, and start a recurring timer at `msPerWord` for the current
`wpm`. -/
def play (s : Reader) : Reader :=
  if s.words.length = 0 then
    s
  else
    let s1 :=
      if s.words.length ≤ s.currentWordIndex then
        { s with currentWordIndex := 0 }
      else
        s
    let s2 :=
      { s1 with isPlaying := true, playDisabled := true, pauseDisabled := false }
    startTimer (displayWord s2) (msPerWord s2.wpm)

/-- One invocation of the timer callback installed by `play` (src/app.js
lines 219-229): increment the index; if it has reached the end, `pause`
and show the finished sentinel, else display the new current word. -/
def tick (s : Reader) : Reader :=
  let s1 := { s with currentWordIndex := s.currentWordIndex + 1 }
  if s1.words.length ≤ s1.currentWordIndex then
    { (pause s1) with wordDisplay := "Finished! 🎉" }
  else
    displayWord s1

/-- Method `reset` (src/app.js lines 243-249): `pause`, zero the index, restore
the idle sentinel text. -/
def reset (s : Reader) : Reader :=
  let s1 := { (pause s) with currentWordIndex := 0 }
  { s1 with
    wordDisplay := if s1.words.length > 0 then "Ready to Start" else "Start Reading" }

/-- Method `loadText` (src/app.js lines 75-95): empty or whitespace-only text
empties the word list and returns — the index, the playing flag and any
running timer are left untouched.  Otherwise the text is tokenized, the
index is reset to 0 and the ready sentinel is shown.  No branch touches
the timer or the playing flag. -/
def loadText (text : String) (s : Reader) : Reader :=
  if text.data.all Char.isWhitespace then
    { s with words := [] }
  else
    let s1 := { s with words := tokenize text, currentWordIndex := 0 }
    if s1.words.length > 0 then
      { s1 with wordDisplay := "Ready to Start" }
    else
      s1

/-- Method `updateWPM` (src/app.js lines 289-298): store the new rate (no
validation of any kind), and if currently playing, `pause` then `play` to
restart the timer at the new interval. -/
def updateWPM (v : Int) (s : Reader) : Reader :=
  let s1 := { s with wpm := v }
  if s1.isPlaying then play (pause s1) else s1

/-! ## Reachability

A step is any event the host can deliver: a text (re)load, a click on an
enabled button, a slider movement, or a tick of a live timer.  A disabled
button delivers no click, so `play` requires the play button enabled and
`pause` the pause button enabled; `reset` and the slider are always
available; a tick requires a live timer handle. -/

/-- One host event applied to the engine. -/
inductive Step : Reader → Reader → Prop where
  | load (text : String) (s : Reader) : Step s (loadText text s)
  | playClick (s : Reader) : s.playDisabled = false → Step s (play s)
  | pauseClick (s : Reader) : s.pauseDisabled = false → Step s (pause s)
  | resetClick (s : Reader) : Step s (reset s)
  | rateInput (v : Int) (s : Reader) : Step s (updateWPM v s)
  | timerTick (s : Reader) (h : Nat) (i : ℚ) :
      (h, i) ∈ s.timers → Step s (tick s)

/-- States reachable from the freshly constructed reader. -/
inductive Reachable : Reader → Prop where
  | base : Reachable initReader
  | step {s t : Reader} : Reachable s → Step s t → Reachable t

/-- The inductive invariant of the engine:
* play-button state mirrors the playing flag;
* an interval handle is held iff playing;
* the live host timers are exactly the held handle (so exactly one timer
  is live while playing, none otherwise);
* with a non-empty word list the index never exceeds the length, and is
  strictly below it while playing. -/
def Inv (s : Reader) : Prop :=
  s.playDisabled = s.isPlaying ∧
  (s.isPlaying = true ↔ s.intervalId.isSome = true) ∧
  (∀ h, s.intervalId = some h → s.timers.map Prod.fst = [h]) ∧
  (s.intervalId = none → s.timers = []) ∧
  (s.words ≠ [] → s.currentWordIndex ≤ s.words.length) ∧
  (s.isPlaying = true → s.words ≠ [] → s.currentWordIndex < s.words.length)

end RSVP
namespace RSVP

@[simp] lemma displayWord_words (s : Reader) : (displayWord s).words = s.words := by
  unfold displayWord; split <;> rfl

@[simp] lemma displayWord_idx (s : Reader) :
    (displayWord s).currentWordIndex = s.currentWordIndex := by
  unfold displayWord; split <;> rfl

@[simp] lemma displayWord_isPlaying (s : Reader) :
    (displayWord s).isPlaying = s.isPlaying := by
  unfold displayWord; split <;> rfl

@[simp] lemma displayWord_intervalId (s : Reader) :
    (displayWord s).intervalId = s.intervalId := by
  unfold displayWord; split <;> rfl

@[simp] lemma displayWord_timers (s : Reader) : (displayWord s).timers = s.timers := by
  unfold displayWord; split <;> rfl

@[simp] lemma displayWord_nextTimer (s : Reader) :
    (displayWord s).nextTimer = s.nextTimer := by
  unfold displayWord; split <;> rfl

@[simp] lemma displayWord_playDisabled (s : Reader) :
    (displayWord s).playDisabled = s.playDisabled := by
  unfold displayWord; split <;> rfl

@[simp] lemma displayWord_pauseDisabled (s : Reader) :
    (displayWord s).pauseDisabled = s.pauseDisabled := by
  unfold displayWord; split <;> rfl

@[simp] lemma displayWord_wpm (s : Reader) : (displayWord s).wpm = s.wpm := by
  unfold displayWord; split <;> rfl

lemma displayWord_display_of_lt (s : Reader)
    (h : s.currentWordIndex < s.words.length) :
    (displayWord s).wordDisplay = s.words.getD s.currentWordIndex "" := by
  unfold displayWord
  rw [dif_pos h, List.getD_eq_getElem s.words "" h]
  rfl

lemma displayWord_of_ge (s : Reader) (h : s.words.length ≤ s.currentWordIndex) :
    displayWord s = s := by
  unfold displayWord
  rw [dif_neg (by omega)]

lemma timers_filter_self {l : List (Nat × ℚ)} {h : Nat}
    (hl : l.map Prod.fst = [h]) : l.filter (fun t => t.1 ≠ h) = [] := by
  match l with
  | [] => simp at hl
  | (a, b) :: tl =>
    simp only [List.map_cons, List.cons.injEq] at hl
    obtain ⟨rfl, htl⟩ := hl
    have : tl = [] := List.map_eq_nil_iff.mp htl
    subst this
    simp [List.filter]

lemma inv_pause (s : Reader) (hs : Inv s) : Inv (pause s) := by
  obtain ⟨h1, h2, h3, h4, h5, h6⟩ := hs
  cases hI : s.intervalId with
  | none =>
    simp only [pause, hI]
    refine ⟨rfl, by simp, by simp, fun _ => h4 hI, h5, by simp⟩
  | some h =>
    simp only [pause, hI]
    exact ⟨rfl, by simp, by simp, fun _ => timers_filter_self (h3 h hI), h5, by simp⟩

lemma pause_intervalId (s : Reader) : (pause s).intervalId = none := by
  cases hI : s.intervalId <;> simp [pause, hI]

lemma pause_fields (s : Reader) :
    (pause s).isPlaying = false ∧ (pause s).words = s.words ∧
    (pause s).currentWordIndex = s.currentWordIndex ∧ (pause s).wpm = s.wpm ∧
    (pause s).wordDisplay = s.wordDisplay ∧ (pause s).nextTimer = s.nextTimer := by
  cases hI : s.intervalId <;> simp [pause, hI]

lemma pause_timers (s : Reader)
    (h3 : ∀ h, s.intervalId = some h → s.timers.map Prod.fst = [h])
    (h4 : s.intervalId = none → s.timers = []) : (pause s).timers = [] := by
  cases hI : s.intervalId with
  | none => simp only [pause, hI]; exact h4 hI
  | some h => simp only [pause, hI]; exact timers_filter_self (h3 h hI)

lemma inv_play (s : Reader) (hs : Inv s) (hn : s.intervalId = none) : Inv (play s) := by
  obtain ⟨h1, h2, h3, h4, h5, h6⟩ := hs
  have htimers : s.timers = [] := h4 hn
  by_cases hw : s.words.length = 0
  · simpa [play, hw] using ⟨h1, h2, h3, h4, h5, h6⟩
  · rw [play, if_neg hw]
    have hlen : 0 < s.words.length := Nat.pos_of_ne_zero hw
    by_cases hidx : s.words.length ≤ s.currentWordIndex
    · simp only [if_pos hidx]
      refine ⟨by simp [startTimer], by simp [startTimer], ?_, by simp [startTimer], ?_, ?_⟩
      · intro h hh
        simp only [startTimer, displayWord_nextTimer, Option.some.injEq] at hh
        simp [startTimer, htimers, hh]
      · intro _
        simp only [startTimer, displayWord_words, displayWord_idx]
        omega
      · intro _ _
        simp only [startTimer, displayWord_words, displayWord_idx, displayWord_isPlaying]
        omega
    · have hlt : s.currentWordIndex < s.words.length := Nat.lt_of_not_le hidx
      simp only [if_neg hidx]
      refine ⟨by simp [startTimer], by simp [startTimer], ?_, by simp [startTimer], ?_, ?_⟩
      · intro h hh
        simp only [startTimer, displayWord_nextTimer, Option.some.injEq] at hh
        simp [startTimer, htimers, hh]
      · intro _
        simp only [startTimer, displayWord_words, displayWord_idx]
        omega
      · intro _ _
        simp only [startTimer, displayWord_words, displayWord_idx, displayWord_isPlaying]
        omega

lemma playing_of_mem_timers (s : Reader) (hs : Inv s) {h : Nat} {i : ℚ}
    (hm : (h, i) ∈ s.timers) : s.isPlaying = true := by
  obtain ⟨h1, h2, h3, h4, h5, h6⟩ := hs
  by_contra hp
  have hfalse : s.isPlaying = false := by
    cases hb : s.isPlaying
    · rfl
    · exact absurd hb hp
  have : s.intervalId = none := by
    cases hI : s.intervalId with
    | none => rfl
    | some x =>
      have := h2.mpr (by simp [hI])
      rw [this] at hfalse
      exact absurd hfalse (by simp)
  rw [h4 this] at hm
  simp at hm

lemma inv_tick (s : Reader) (hs : Inv s) (hp : s.isPlaying = true) : Inv (tick s) := by
  obtain ⟨h1, h2, h3, h4, h5, h6⟩ := hs
  rw [tick]
  by_cases hend : s.words.length ≤ s.currentWordIndex + 1
  · simp only [if_pos hend]
    refine ⟨?_, ?_, ?_, ?_, ?_, ?_⟩
    · cases hI : s.intervalId <;> simp [pause, hI]
    · cases hI : s.intervalId <;> simp [pause, hI]
    · intro x hx
      rw [pause_intervalId] at hx
      exact absurd hx (by simp)
    · intro _
      exact pause_timers _ h3 h4
    · intro hw
      have hw2 : s.words ≠ [] := by
        revert hw
        cases hI : s.intervalId <;> simp [pause, hI]
      have hlt := h6 hp hw2
      cases hI : s.intervalId <;> simp [pause, hI] <;> omega
    · intro hcontra _
      cases hI : s.intervalId <;> simp [pause, hI] at hcontra
  · simp only [if_neg hend]
    have hlt : s.currentWordIndex + 1 < s.words.length := Nat.lt_of_not_le hend
    refine ⟨by simp [h1], by simpa using h2, ?_, ?_, ?_, ?_⟩
    · intro x hx
      simp only [displayWord_intervalId] at hx
      simpa using h3 x hx
    · intro hx
      simp only [displayWord_intervalId] at hx
      simpa using h4 hx
    · intro _
      simp only [displayWord_idx, displayWord_words]
      omega
    · intro _ _
      simp only [displayWord_idx, displayWord_words]
      omega

lemma inv_reset (s : Reader) (hs : Inv s) : Inv (reset s) := by
  obtain ⟨h1, h2, h3, h4, h5, h6⟩ := hs
  rw [reset]
  refine ⟨?_, ?_, ?_, ?_, ?_, ?_⟩
  · cases hI : s.intervalId <;> simp [pause, hI]
  · cases hI : s.intervalId <;> simp [pause, hI]
  · intro x hx
    simp only at hx
    rw [pause_intervalId] at hx
    exact absurd hx (by simp)
  · intro _
    simpa using pause_timers _ h3 h4
  · intro _
    cases hI : s.intervalId <;> simp [pause, hI]
  · intro hcontra _
    cases hI : s.intervalId <;> simp [pause, hI] at hcontra

lemma inv_loadText (s : Reader) (text : String) (hs : Inv s) : Inv (loadText text s) := by
  obtain ⟨h1, h2, h3, h4, h5, h6⟩ := hs
  rw [loadText]
  by_cases hws : text.data.all Char.isWhitespace
  · simp only [if_pos hws]
    exact ⟨h1, h2, h3, h4, by simp, by simp⟩
  · simp only [if_neg hws]
    by_cases hlen : (tokenize text).length > 0
    · simp only [if_pos hlen]
      refine ⟨h1, h2, h3, h4, fun _ => Nat.zero_le _, fun _ _ => hlen⟩
    · simp only [if_neg hlen]
      refine ⟨h1, h2, h3, h4, fun _ => Nat.zero_le _, fun _ hw => ?_⟩
      exact absurd (List.length_pos.mpr hw) hlen

lemma inv_updateWPM (s : Reader) (v : Int) (hs : Inv s) : Inv (updateWPM v s) := by
  obtain ⟨h1, h2, h3, h4, h5, h6⟩ := hs
  have hinv1 : Inv { s with wpm := v } := ⟨h1, h2, h3, h4, h5, h6⟩
  rw [updateWPM]
  split
  · exact inv_play _ (inv_pause _ hinv1) (pause_intervalId _)
  · exact hinv1

lemma inv_initReader : Inv initReader := by
  refine ⟨rfl, by simp [initReader], ?_, fun _ => rfl, by simp [initReader], by simp [initReader]⟩
  intro x hx
  simp [initReader] at hx

lemma inv_step {s1 s2 : Reader} (hs : Inv s1) (hstep : Step s1 s2) : Inv s2 := by
  cases hstep with
  | load text _ => exact inv_loadText s1 text hs
  | playClick _ hbtn =>
    have hp : s1.isPlaying = false := by rw [← hs.1, hbtn]
    have hnone : s1.intervalId = none := by
      cases hI : s1.intervalId with
      | none => rfl
      | some x =>
        have := hs.2.1.mpr (by simp [hI])
        rw [this] at hp
        exact absurd hp (by simp)
    exact inv_play s1 hs hnone
  | pauseClick _ hbtn => exact inv_pause s1 hs
  | resetClick _ => exact inv_reset s1 hs
  | rateInput v _ => exact inv_updateWPM s1 v hs
  | timerTick _ h i hm => exact inv_tick s1 hs (playing_of_mem_timers s1 hs hm)

theorem reachable_inv {s : Reader} (hr : Reachable s) : Inv s := by
  induction hr with
  | base => exact inv_initReader
  | step hprev hstep ih => exact inv_step ih hstep

end RSVP
namespace RSVP

lemma splitWsChars_no_ws (l : List Char) :
    ∀ w ∈ splitWsChars l, ∀ c ∈ w, c.isWhitespace = false := by
  induction l with
  | nil =>
    intro w hw c hc
    simp only [splitWsChars, List.mem_singleton] at hw
    subst hw
    exact absurd hc (List.not_mem_nil c)
  | cons a tl ih =>
    intro w hw c hc
    rw [splitWsChars] at hw
    by_cases ha : a.isWhitespace
    · rw [if_pos ha, List.mem_cons] at hw
      rcases hw with rfl | hw2
      · exact absurd hc (List.not_mem_nil c)
      · exact ih w hw2 c hc
    · rw [if_neg ha] at hw
      rcases hsplit : splitWsChars tl with _ | ⟨t, ts⟩
      · simp only [hsplit, List.mem_singleton] at hw
        subst hw
        rw [List.mem_singleton] at hc
        subst hc
        simpa using ha
      · simp only [hsplit, List.mem_cons] at hw
        rcases hw with rfl | hw2
        · rcases List.mem_cons.mp hc with rfl | hc2
          · simpa using ha
          · exact ih t (by rw [hsplit]; exact List.mem_cons_self t ts) c hc2
        · exact ih w (by rw [hsplit]; exact List.mem_cons_of_mem t hw2) c hc

lemma trimChars_of_no_ws (l : List Char) (hl : ∀ c ∈ l, c.isWhitespace = false) :
    trimChars l = l := by
  have hdrop : ∀ (m : List Char), (∀ c ∈ m, c.isWhitespace = false) →
      m.dropWhile Char.isWhitespace = m := by
    intro m hm
    cases m with
    | nil => rfl
    | cons c cs => rw [List.dropWhile_cons_of_neg (by simp [hm c (by simp)])]
  rw [trimChars, hdrop l hl, hdrop l.reverse (by intro c hc; exact hl c (List.mem_reverse.mp hc)),
    List.reverse_reverse]

lemma tokenize_mem_no_ws (text : String) :
    ∀ w ∈ tokenize text, w.data ≠ [] ∧ ∀ c ∈ w.data, c.isWhitespace = false := by
  intro w hw
  rw [tokenize] at hw
  split at hw
  · simp at hw
  · simp only [List.mem_map, List.mem_filter] at hw
    obtain ⟨w1, ⟨hmem, hlen⟩, rfl⟩ := hw
    rw [jsSplitWs] at hmem
    simp only [List.mem_map] at hmem
    obtain ⟨l, hl, rfl⟩ := hmem
    have hno : ∀ c ∈ l, c.isWhitespace = false := splitWsChars_no_ws text.data l hl
    have hdata : (String.mk l).data = l := rfl
    have htrim : jsTrim (String.mk l) = String.mk l := by
      rw [jsTrim, hdata, trimChars_of_no_ws l hno]
    rw [htrim, hdata]
    refine ⟨?_, hno⟩
    intro hnil
    subst hnil
    simp [String.length] at hlen

end RSVP

namespace RSVP

lemma play_of_lt (s : Reader) (hlt : s.currentWordIndex < s.words.length) :
    play s =
      { s with
        isPlaying := true
        playDisabled := true
        pauseDisabled := false
        wordDisplay := s.words.getD s.currentWordIndex ""
        intervalId := some s.nextTimer
        timers := s.timers ++ [(s.nextTimer, msPerWord s.wpm)]
        nextTimer := s.nextTimer + 1 } := by
  have hne : ¬ s.words.length = 0 := by omega
  have hnle : ¬ s.words.length ≤ s.currentWordIndex := by omega
  simp [play, if_neg hne, if_neg hnle, startTimer, displayWord, hlt,
    List.getD_eq_getElem]
  intro hnil
  rw [hnil] at hlt
  simp at hlt

lemma play_of_end (s : Reader) (hne : s.words.length ≠ 0)
    (hge : s.words.length ≤ s.currentWordIndex) :
    play s =
      { s with
        currentWordIndex := 0
        isPlaying := true
        playDisabled := true
        pauseDisabled := false
        wordDisplay := s.words.getD 0 ""
        intervalId := some s.nextTimer
        timers := s.timers ++ [(s.nextTimer, msPerWord s.wpm)]
        nextTimer := s.nextTimer + 1 } := by
  have hlt : 0 < s.words.length := Nat.pos_of_ne_zero hne
  simp [play, if_neg hne, if_pos hge, startTimer, displayWord, hlt,
    List.getD_eq_getElem]
  intro hnil
  rw [hnil] at hlt
  simp at hlt

end RSVP

namespace RSVP

@[simp] lemma pause_words (s : Reader) : (pause s).words = s.words := by
  cases hI : s.intervalId <;> simp [pause, hI]

@[simp] lemma pause_idx (s : Reader) :
    (pause s).currentWordIndex = s.currentWordIndex := by
  cases hI : s.intervalId <;> simp [pause, hI]

@[simp] lemma pause_isPlaying (s : Reader) : (pause s).isPlaying = false := by
  cases hI : s.intervalId <;> simp [pause, hI]

@[simp] lemma pause_wpm (s : Reader) : (pause s).wpm = s.wpm := by
  cases hI : s.intervalId <;> simp [pause, hI]

@[simp] lemma pause_display (s : Reader) : (pause s).wordDisplay = s.wordDisplay := by
  cases hI : s.intervalId <;> simp [pause, hI]

@[simp] lemma pause_nextTimer (s : Reader) : (pause s).nextTimer = s.nextTimer := by
  cases hI : s.intervalId <;> simp [pause, hI]

@[simp] lemma play_wpm (s : Reader) : (play s).wpm = s.wpm := by
  rw [play]
  split
  · rfl
  · split <;> simp [startTimer]

@[simp] lemma loadText_isPlaying (s : Reader) (text : String) :
    (loadText text s).isPlaying = s.isPlaying := by
  rw [loadText]
  split
  · rfl
  · dsimp only
    split <;> rfl

@[simp] lemma loadText_intervalId (s : Reader) (text : String) :
    (loadText text s).intervalId = s.intervalId := by
  rw [loadText]
  split
  · rfl
  · dsimp only
    split <;> rfl

@[simp] lemma loadText_timers (s : Reader) (text : String) :
    (loadText text s).timers = s.timers := by
  rw [loadText]
  split
  · rfl
  · dsimp only
    split <;> rfl

@[simp] lemma loadText_wpm (s : Reader) (text : String) :
    (loadText text s).wpm = s.wpm := by
  rw [loadText]
  split
  · rfl
  · dsimp only
    split <;> rfl

lemma reset_timers_eq (s : Reader) : (reset s).timers = (pause s).timers := rfl

end RSVP

namespace RSVP

lemma reachable_loaded : Reachable (loadText "a b c" initReader) :=
  Reachable.step Reachable.base (Step.load "a b c" initReader)

lemma reachable_playing : Reachable (play (loadText "a b c" initReader)) :=
  Reachable.step reachable_loaded (Step.playClick _ (by decide))

lemma playing_timers_concrete :
    (play (loadText "a b c" initReader)).timers = [(1, msPerWord 250)] := rfl

lemma reachable_ticked : Reachable (tick (play (loadText "a b c" initReader))) :=
  Reachable.step reachable_playing
    (Step.timerTick _ 1 (msPerWord 250)
      (by rw [playing_timers_concrete]; exact List.mem_singleton.mpr rfl))

lemma reachable_paused : Reachable (pause (tick (play (loadText "a b c" initReader)))) :=
  Reachable.step reachable_ticked (Step.pauseClick _ (by decide))

lemma reachable_neg_rate : Reachable (updateWPM (-100) (loadText "a" initReader)) :=
  Reachable.step (Reachable.step Reachable.base (Step.load "a" initReader))
    (Step.rateInput (-100) _)

lemma reachable_neg_playing :
    Reachable (play (updateWPM (-100) (loadText "a" initReader))) :=
  Reachable.step reachable_neg_rate (Step.playClick _ (by decide))

end RSVP

namespace RSVP

/-- C1 (counterexample): the claimed invariant `position <= length` fails on
the code: load three words, play, let one tick advance the position to 1,
then load whitespace-only text — `loadText` empties the word list without
resetting the position, leaving position 1 > length 0 in a reachable state. -/
theorem position_overflow_cex :
    Reachable (loadText " " (tick (play (loadText "a b c" initReader)))) ∧
    (loadText " " (tick (play (loadText "a b c" initReader)))).words.length <
      (loadText " " (tick (play (loadText "a b c" initReader)))).currentWordIndex :=
  ⟨Reachable.step reachable_ticked (Step.load " " _), by decide⟩

/-- C1 (amended): in every reachable state whose loaded word sequence is
non-empty, `0 <= position <= length` holds, and `position = length` only
with playback stopped and no timer handle held (the Finished situation);
after loading empty or whitespace-only text the sequence becomes empty
while the position is left unchanged, so position may exceed the zero
length until the next non-empty load, play or reset. -/
theorem position_bounds (s : Reader) (hr : Reachable s) (hw : s.words ≠ []) :
    s.currentWordIndex ≤ s.words.length ∧
    (s.currentWordIndex = s.words.length →
      s.isPlaying = false ∧ s.intervalId = none) := by
  obtain ⟨h1, h2, h3, h4, h5, h6⟩ := reachable_inv hr
  refine ⟨h5 hw, fun he => ?_⟩
  have hp : s.isPlaying = false := by
    cases hb : s.isPlaying
    · rfl
    · exact absurd (h6 hb hw) (by omega)
  refine ⟨hp, ?_⟩
  cases hI : s.intervalId with
  | none => rfl
  | some x =>
    have := h2.mpr (by simp [hI])
    rw [this] at hp
    exact absurd hp (by simp)

/-- C1 (witness): the bounds theorem applied to the reachable Finished
state after playing all three loaded words. -/
theorem position_bounds_witness :
    (tick (tick (tick (play (loadText "a b c" initReader))))).words ≠ [] ∧
    ((tick (tick (tick (play (loadText "a b c" initReader))))).currentWordIndex ≤
      (tick (tick (tick (play (loadText "a b c" initReader))))).words.length ∧
    ((tick (tick (tick (play (loadText "a b c" initReader))))).currentWordIndex =
        (tick (tick (tick (play (loadText "a b c" initReader))))).words.length →
      (tick (tick (tick (play (loadText "a b c" initReader))))).isPlaying = false ∧
      (tick (tick (tick (play (loadText "a b c" initReader))))).intervalId = none)) :=
  ⟨by decide,
    position_bounds _
      (Reachable.step
        (Reachable.step reachable_ticked
          (Step.timerTick _ 1 (msPerWord 250)
            (by
              have ht : (tick (play (loadText "a b c" initReader))).timers
                  = [(1, msPerWord 250)] := rfl
              rw [ht]
              exact List.mem_singleton.mpr rfl)))
        (Step.timerTick _ 1 (msPerWord 250)
          (by
            have ht : (tick (tick (play (loadText "a b c" initReader)))).timers
                = [(1, msPerWord 250)] := rfl
            rw [ht]
            exact List.mem_singleton.mpr rfl)))
      (by decide)⟩

end RSVP

namespace RSVP

/-- C2 (counterexample): `loadText` never stops a running timer and never
leaves the Playing status: loading new text while playing keeps the engine
playing with the old interval handle still live, and loading
whitespace-only text additionally leaves the position untouched — the
engine is not put into Idle with position 0. -/
theorem load_keeps_timer_cex :
    Reachable (play (loadText "a b c" initReader)) ∧
    (play (loadText "a b c" initReader)).isPlaying = true ∧
    (loadText "x y" (play (loadText "a b c" initReader))).isPlaying = true ∧
    (loadText "x y" (play (loadText "a b c" initReader))).intervalId = some 1 ∧
    (loadText " " (tick (play (loadText "a b c" initReader)))).words = [] ∧
    (loadText " " (tick (play (loadText "a b c" initReader)))).currentWordIndex = 1 :=
  ⟨reachable_playing, by decide, by decide, by decide, by decide, by decide⟩

/-- C2 (amended): `loadText` always succeeds, but it never stops a running
timer and never changes the playing status, the interval handle, the live
timers or the rate.  Loading non-whitespace text replaces the sequence by
the tokenization and resets the position to 0; loading empty or
whitespace-only text empties the sequence and leaves the position
untouched. -/
theorem loadText_effect (s : Reader) (text : String) :
    (loadText text s).isPlaying = s.isPlaying ∧
    (loadText text s).intervalId = s.intervalId ∧
    (loadText text s).timers = s.timers ∧
    (loadText text s).wpm = s.wpm ∧
    (if text.data.all Char.isWhitespace then
      (loadText text s).words = [] ∧
        (loadText text s).currentWordIndex = s.currentWordIndex
     else
      (loadText text s).words = tokenize text ∧
        (loadText text s).currentWordIndex = 0) := by
  refine ⟨loadText_isPlaying s text, loadText_intervalId s text,
    loadText_timers s text, loadText_wpm s text, ?_⟩
  by_cases hws : text.data.all Char.isWhitespace = true
  · rw [if_pos hws]
    simp [loadText, hws]
  · rw [if_neg hws]
    rw [loadText, if_neg hws]
    dsimp only
    split <;> exact ⟨rfl, rfl⟩

/-- C5: calling `play` with an empty word sequence reports the failure to
the user (the alert branch) and returns with the engine state completely
unchanged: no field is modified, no timer is started, and the engine
remains usable. -/
theorem play_empty_noop (s : Reader) (hw : s.words = []) : play s = s := by
  rw [play, if_pos (by simp [hw])]

/-- C5 (witness): `play` on the freshly constructed reader (empty
sequence) is the identity. -/
theorem play_empty_noop_witness :
    initReader.words = [] ∧ play initReader = initReader :=
  ⟨rfl, play_empty_noop initReader rfl⟩

/-- C7 (counterexample): `updateWPM` performs no bounds validation:
setting 5000 wpm (far outside the spec's practical 100-1000 range)
succeeds and changes the effective rate, with no InvalidRate failure. -/
theorem rate_bounds_cex :
    Reachable (updateWPM 5000 initReader) ∧
    (updateWPM 5000 initReader).wpm = 5000 ∧ initReader.wpm = 250 :=
  ⟨Reachable.step Reachable.base (Step.rateInput 5000 initReader), by decide, rfl⟩

/-- C7 (amended): `updateWPM` never fails and validates nothing: in every
state and for every value (in range or not) it unconditionally sets the
stored rate to the given value (restarting the timer when playing). -/
theorem updateWPM_sets_rate (s : Reader) (v : Int) : (updateWPM v s).wpm = v := by
  rw [updateWPM]
  dsimp only
  split
  · rw [play_wpm, pause_wpm]
  · rfl

/-- C10: `displayWord` reads `words[position]` only under the guard
`position < length`: with the position at or past the end it changes
nothing (in particular the displayed word is unchanged), and under the
guard the emitted display text is exactly the current word, an element of
the loaded sequence. -/
theorem displayWord_safe (s : Reader) :
    (s.words.length ≤ s.currentWordIndex → displayWord s = s) ∧
    (s.currentWordIndex < s.words.length →
      (displayWord s).wordDisplay = s.words.getD s.currentWordIndex "" ∧
      (displayWord s).wordDisplay ∈ s.words) := by
  refine ⟨displayWord_of_ge s, fun h => ⟨displayWord_display_of_lt s h, ?_⟩⟩
  rw [displayWord_display_of_lt s h, List.getD_eq_getElem s.words "" h]
  exact List.getElem_mem h

/-- C10 (witness): the guard theorem applied to the empty initial state
(position 0 = length 0, display untouched) and to a freshly loaded
three-word state (position 0 < 3, display = first word). -/
theorem displayWord_safe_witness :
    (initReader.words.length ≤ initReader.currentWordIndex ∧
      displayWord initReader = initReader) ∧
    ((loadText "a b c" initReader).currentWordIndex <
        (loadText "a b c" initReader).words.length ∧
      ((displayWord (loadText "a b c" initReader)).wordDisplay =
          (loadText "a b c" initReader).words.getD
            (loadText "a b c" initReader).currentWordIndex "" ∧
        (displayWord (loadText "a b c" initReader)).wordDisplay ∈
          (loadText "a b c" initReader).words)) :=
  ⟨⟨by decide, (displayWord_safe initReader).1 (by decide)⟩,
    ⟨by decide, (displayWord_safe (loadText "a b c" initReader)).2 (by decide)⟩⟩

end RSVP

namespace RSVP

/-- C9: tokenization splits on runs of whitespace: every token produced by
`tokenize` is non-empty and contains no whitespace character at all (hence
no internal whitespace); empty or whitespace-only input yields the empty
sequence rather than an error. -/
theorem tokenize_sound (text w : String) :
    (w ∈ tokenize text →
      w ≠ "" ∧ w.data.all (fun c => !c.isWhitespace) = true) ∧
    (text.data.all Char.isWhitespace = true → tokenize text = []) := by
  constructor
  · intro hmem
    obtain ⟨hne, hno⟩ := tokenize_mem_no_ws text w hmem
    constructor
    · intro hcontra
      subst hcontra
      exact hne rfl
    · rw [List.all_eq_true]
      intro c hc
      simp [hno c hc]
  · intro hws
    rw [tokenize, if_pos hws]

/-- C9 (witness): the tokenizer theorem applied to a concrete text with
leading, internal and trailing whitespace, and to a whitespace-only text. -/
theorem tokenize_sound_witness :
    ("he" ∈ tokenize "  he llo ") ∧
    ("he" ≠ "" ∧ "he".data.all (fun c => !c.isWhitespace) = true) ∧
    ("   ".data.all Char.isWhitespace = true ∧ tokenize "   " = []) :=
  ⟨by decide, (tokenize_sound "  he llo " "he").1 (by decide),
    by decide, (tokenize_sound "   " "he").2 (by decide)⟩

end RSVP

namespace RSVP

/-- C3: changing the rate while playing (the `updateWPM` pause-then-play
restart) leaves the position and the word list unchanged, keeps the engine
playing, re-displays exactly the current word, and replaces the single
live timer by one at the interval for the new rate — no position is
skipped or advanced by the call itself. -/
theorem updateWPM_playing_preserves (v : Int) (s : Reader) (hr : Reachable s)
    (hp : s.isPlaying = true) (hw : s.words ≠ []) :
    (updateWPM v s).currentWordIndex = s.currentWordIndex ∧
    (updateWPM v s).words = s.words ∧
    (updateWPM v s).isPlaying = true ∧
    (updateWPM v s).wordDisplay = s.words.getD s.currentWordIndex "" ∧
    (updateWPM v s).timers.map Prod.snd = [msPerWord v] ∧
    (updateWPM v s).wpm = v := by
  obtain ⟨h1, h2, h3, h4, h5, h6⟩ := reachable_inv hr
  have hlt : s.currentWordIndex < s.words.length := h6 hp hw
  rw [updateWPM]
  dsimp only
  rw [if_pos (show ({ s with wpm := v } : Reader).isPlaying = true from hp)]
  have hpt : (pause { s with wpm := v }).timers = [] :=
    pause_timers _ (fun x hx => h3 x hx) (fun hx => h4 hx)
  have hplt : (pause { s with wpm := v }).currentWordIndex <
      (pause { s with wpm := v }).words.length := by simpa using hlt
  rw [play_of_lt _ hplt]
  refine ⟨by simp, by simp, rfl, by simp, ?_, by simp⟩
  simp [hpt]

/-- C3 (witness): the rate-change theorem applied while playing the first
of three loaded words, switching to 400 wpm. -/
theorem updateWPM_playing_preserves_witness :
    (play (loadText "a b c" initReader)).isPlaying = true ∧
    (play (loadText "a b c" initReader)).words ≠ [] ∧
    ((updateWPM 400 (play (loadText "a b c" initReader))).currentWordIndex =
        (play (loadText "a b c" initReader)).currentWordIndex ∧
      (updateWPM 400 (play (loadText "a b c" initReader))).words =
        (play (loadText "a b c" initReader)).words ∧
      (updateWPM 400 (play (loadText "a b c" initReader))).isPlaying = true ∧
      (updateWPM 400 (play (loadText "a b c" initReader))).wordDisplay =
        (play (loadText "a b c" initReader)).words.getD
          (play (loadText "a b c" initReader)).currentWordIndex "" ∧
      (updateWPM 400 (play (loadText "a b c" initReader))).timers.map Prod.snd =
        [msPerWord 400] ∧
      (updateWPM 400 (play (loadText "a b c" initReader))).wpm = 400) :=
  ⟨by decide, by decide,
    updateWPM_playing_preserves 400 _ reachable_playing (by decide) (by decide)⟩

/-- C4 (counterexample): the timing policy never fails for nonpositive
rates: with the rate set to -100 (possible because `updateWPM` does not
validate), `play` succeeds and schedules a timer whose interval is the
division result 60000 / -100 = -600 — a "duration" is returned where the
claim demands an InvalidRate failure. -/
theorem negative_rate_no_failure_cex :
    Reachable (play (updateWPM (-100) (loadText "a" initReader))) ∧
    (play (updateWPM (-100) (loadText "a" initReader))).timers.map Prod.snd =
      [-600] ∧
    (play (updateWPM (-100) (loadText "a" initReader))).intervalId = some 1 ∧
    msPerWord (-100) = -600 := by
  have hms : msPerWord (-100) = -600 := by norm_num [msPerWord]
  refine ⟨reachable_neg_playing, ?_, by decide, hms⟩
  have ht : (play (updateWPM (-100) (loadText "a" initReader))).timers
      = [(1, msPerWord (-100))] := rfl
  rw [ht]
  simp [hms]

/-- C4 (amended): for every stored rate, positive or not, the timing policy
is the bare division `60000 / wpm` and `play` on a non-empty sequence
always schedules a fresh timer at exactly that interval; no validation is
performed and no InvalidRate failure path exists (for r > 0 this yields
the claimed 60000 / r milliseconds per word; at r = 0 the host arithmetic
yields Infinity). -/
theorem play_schedules_interval (s : Reader) (hw : s.words ≠ []) :
    (play s).timers = s.timers ++ [(s.nextTimer, msPerWord s.wpm)] ∧
    (play s).intervalId = some s.nextTimer := by
  have hne : s.words.length ≠ 0 := by
    intro h0
    exact hw (List.length_eq_zero.mp h0)
  by_cases hge : s.words.length ≤ s.currentWordIndex
  · rw [play_of_end s hne hge]
    exact ⟨rfl, rfl⟩
  · rw [play_of_lt s (by omega)]
    exact ⟨rfl, rfl⟩

/-- C4 (witness): the scheduling theorem applied to a loaded one-word
state whose rate was set to -100. -/
theorem play_schedules_interval_witness :
    (updateWPM (-100) (loadText "a" initReader)).words ≠ [] ∧
    ((play (updateWPM (-100) (loadText "a" initReader))).timers =
        (updateWPM (-100) (loadText "a" initReader)).timers ++
          [((updateWPM (-100) (loadText "a" initReader)).nextTimer,
            msPerWord (updateWPM (-100) (loadText "a" initReader)).wpm)] ∧
      (play (updateWPM (-100) (loadText "a" initReader))).intervalId =
        some (updateWPM (-100) (loadText "a" initReader)).nextTimer) :=
  ⟨by decide, play_schedules_interval _ (by decide)⟩

/-- C6: `play` on a non-empty sequence resets the position to 0 exactly
when the position has reached the sequence length (the Finished
situation); from any other reachable position — in particular a paused
one — it resumes at exactly the pre-call position, and the word displayed
after the call is the word at the resulting position. -/
theorem play_resume_or_restart (s : Reader) (hr : Reachable s) (hw : s.words ≠ []) :
    (play s).currentWordIndex =
      (if s.currentWordIndex = s.words.length then 0 else s.currentWordIndex) ∧
    (play s).wordDisplay = s.words.getD (play s).currentWordIndex "" ∧
    (play s).isPlaying = true := by
  obtain ⟨h1, h2, h3, h4, h5, h6⟩ := reachable_inv hr
  have hle : s.currentWordIndex ≤ s.words.length := h5 hw
  have hne : s.words.length ≠ 0 := by
    intro h0
    exact hw (List.length_eq_zero.mp h0)
  by_cases heq : s.currentWordIndex = s.words.length
  · rw [play_of_end s hne (by omega)]
    simp [heq]
  · have hlt : s.currentWordIndex < s.words.length := by omega
    rw [play_of_lt s hlt]
    simp [heq]

/-- C6 (witness): play, one tick (position 1), pause; `play` again resumes
at position 1 — not 0 — and re-displays the second word. -/
theorem play_resume_or_restart_witness :
    (pause (tick (play (loadText "a b c" initReader)))).words ≠ [] ∧
    ((play (pause (tick (play (loadText "a b c" initReader))))).currentWordIndex =
        (if (pause (tick (play (loadText "a b c" initReader)))).currentWordIndex =
            (pause (tick (play (loadText "a b c" initReader)))).words.length then 0
          else (pause (tick (play (loadText "a b c" initReader)))).currentWordIndex) ∧
      (play (pause (tick (play (loadText "a b c" initReader))))).wordDisplay =
        (pause (tick (play (loadText "a b c" initReader)))).words.getD
          (play (pause (tick (play (loadText "a b c" initReader))))).currentWordIndex
          "" ∧
      (play (pause (tick (play (loadText "a b c" initReader))))).isPlaying = true) :=
  ⟨by decide, play_resume_or_restart _ reachable_paused (by decide)⟩

/-- C8 (counterexample): `loadText` does not invalidate the current timer
handle before returning: after loading new text while playing, the old
handle is still stored and its timer is still live. -/
theorem load_leaves_timer_cex :
    Reachable (play (loadText "a b c" initReader)) ∧
    (loadText "x y" (play (loadText "a b c" initReader))).timers.map Prod.fst =
      [1] ∧
    (loadText "x y" (play (loadText "a b c" initReader))).intervalId = some 1 :=
  ⟨reachable_playing, by decide, by decide⟩

/-- C8 (amended): in every reachable state a live timer exists iff the
state is Playing, and while Playing exactly one handle is live; `pause`
and `reset` invalidate the handle synchronously before returning, but
`loadText` leaves the live timers and the stored handle untouched. -/
theorem timer_iff_playing (s : Reader) (text : String) (hr : Reachable s) :
    (s.isPlaying = true ↔ s.intervalId.isSome = true) ∧
    s.timers.length = (if s.isPlaying = true then 1 else 0) ∧
    (pause s).timers = [] ∧
    (reset s).timers = [] ∧
    (loadText text s).timers = s.timers ∧
    (loadText text s).intervalId = s.intervalId := by
  obtain ⟨h1, h2, h3, h4, h5, h6⟩ := reachable_inv hr
  refine ⟨h2, ?_, pause_timers s h3 h4, ?_, loadText_timers s text,
    loadText_intervalId s text⟩
  · by_cases hp : s.isPlaying = true
    · rw [if_pos hp]
      cases hI : s.intervalId with
      | none =>
        have := h2.mp hp
        rw [hI] at this
        exact absurd this (by simp)
      | some x =>
        have hmap := h3 x hI
        have : (s.timers.map Prod.fst).length = 1 := by rw [hmap]; rfl
        simpa using this
    · rw [if_neg hp]
      have hfalse : s.isPlaying = false := by
        cases hb : s.isPlaying
        · rfl
        · exact absurd hb hp
      have hnone : s.intervalId = none := by
        cases hI : s.intervalId with
        | none => rfl
        | some x =>
          have := h2.mpr (by simp [hI])
          rw [this] at hfalse
          exact absurd hfalse (by simp)
      rw [h4 hnone]
      rfl
  · rw [reset_timers_eq]
    exact pause_timers s h3 h4

/-- C8 (witness): the timer-discipline theorem applied to the playing
state (one live handle, cleared by pause/reset, untouched by load). -/
theorem timer_iff_playing_witness :
    ((play (loadText "a b c" initReader)).isPlaying = true ↔
      (play (loadText "a b c" initReader)).intervalId.isSome = true) ∧
    (play (loadText "a b c" initReader)).timers.length =
      (if (play (loadText "a b c" initReader)).isPlaying = true then 1 else 0) ∧
    (pause (play (loadText "a b c" initReader))).timers = [] ∧
    (reset (play (loadText "a b c" initReader))).timers = [] ∧
    (loadText "x y" (play (loadText "a b c" initReader))).timers =
      (play (loadText "a b c" initReader)).timers ∧
    (loadText "x y" (play (loadText "a b c" initReader))).intervalId =
      (play (loadText "a b c" initReader)).intervalId :=
  timer_iff_playing _ "x y" reachable_playing

end RSVP
